import Mathlib

/-!
Verification development for the seatly seat-reservation program.

The definitions in the first part of this file are a shallow embedding of
`src/reservation.ts` / `src/seatly.ts` (grid model, candidate generation,
Manhattan scoring, selection, and the `Seatly` orchestrator).  JavaScript
numbers are modelled as `Int` (all arithmetic in the program stays on small
integers), JS arrays of booleans as `List Bool` (reading a hole or an
out-of-range index yields `undefined`, which is falsy — modelled by a `false`
default), the `Map<number, boolean[]>` seat map as a `List (List Bool)`
indexed by row id (`Map.get` of an absent key yields `undefined`, modelled by
`Option`), and thrown exceptions as `Except String`.  Logging and benchmark
calls are side channels with no effect on results and are not modelled.
-/

namespace Seatly

/-- `for (x = 0; x < k; x++)` loop index sequence, as a list of `Int`. -/
def intsUpTo (k : Int) : List Int :=
  (List.range k.toNat).map Int.ofNat

/-- JS read `row[column]` used in boolean position: a missing entry is
`undefined`, which is falsy. -/
def rowGet (row : List Bool) (column : Int) : Bool :=
  if column < 0 then false else row.getD column.toNat false

/-- JS `seatMap.get(rowId)`: `undefined` (here `none`) when absent. -/
def mapGet (m : List (List Bool)) (rowId : Int) : Option (List Bool) :=
  if rowId < 0 then none else m[rowId.toNat]?

/-- JS array write `newRow[columnId] = true`: writing past the end extends the
array with holes (read back as falsy).  A negative index cannot reach this
function (bounds are checked by `isSeatAvailable` first). -/
def setSeat (row : List Bool) (columnId : Int) : List Bool :=
  if columnId < 0 then row
  else if columnId.toNat < row.length then row.set columnId.toNat true
  else row ++ List.replicate (columnId.toNat - row.length) false ++ [true]

structure SeatMapConfig where
  rows : Int
  columns : Int
deriving DecidableEq, Repr

def defaultConfig : SeatMapConfig :=
  { rows := 3, columns := 11 }

inductive TopCenterLocation where
  | single : Int → Int → TopCenterLocation
  | double : Int × Int → Int × Int → TopCenterLocation
deriving DecidableEq, Repr

structure SeatingPlan where
  config : SeatMapConfig
  seatMap : List (List Bool)
  center : TopCenterLocation
deriving DecidableEq, Repr

/-- `getTopCenterLocation` from the source.  JS `%` is truncating remainder
(`Int.tmod`); `Math.round(columns / 2)` on the exact rational `columns / 2`
rounds halves toward `+∞`, which for an integer `columns` is
`(columns + 1).fdiv 2`.  The even branch's `columns / 2` is an exact integer
division for the even column counts that reach it. -/
def getTopCenterLocation (config : SeatMapConfig) : TopCenterLocation :=
  -- uneven
  if config.columns.tmod 2 = 1 then
    .single 0 ((config.columns + 1).fdiv 2 - 1)
  -- even
  else
    .double (0, config.columns / 2 - 1) (0, config.columns / 2)

/-- JSON.stringify of a config object, used in the config error message. -/
def jsonConfig (config : SeatMapConfig) : String :=
  "\x7b\"rows\":" ++ toString config.rows ++ ",\"columns\":" ++
    toString config.columns ++ "\x7d"

/-- Optional override object (`Partial<SeatMapConfig>`). -/
structure PartialSeatMapConfig where
  rows : Option Int := none
  columns : Option Int := none
deriving DecidableEq, Repr

/-- The config produced by `initSeatingPlan`'s override merging: each
override is applied only when truthy in JS (`if (configInput.rows)`), i.e.
present and nonzero. -/
def effectiveConfig (configInput : Option PartialSeatMapConfig) : SeatMapConfig :=
  match configInput with
  | none => defaultConfig
  | some ci =>
    let c1 :=
      match ci.rows with
      | some r => if r ≠ 0 then { defaultConfig with rows := r } else defaultConfig
      | none => defaultConfig
    match ci.columns with
    | some c => if c ≠ 0 then { c1 with columns := c } else c1
    | none => c1

/-- `initSeatingPlan` from the source. -/
def initSeatingPlan (configInput : Option PartialSeatMapConfig) :
    Except String SeatingPlan :=
  let config := effectiveConfig configInput
  if config.rows < 1 ∨ config.columns < 1 then
    .error ("Invalid config, neither rows or columns can be less than 1: " ++
      jsonConfig config)
  else
    .ok { config := config
          seatMap := List.replicate config.rows.toNat
            (List.replicate config.columns.toNat false)
          center := getTopCenterLocation config }

/-- The occupancy bit the program reads for a cell:
`seatMap.get(row)?.[column]` coerced to a boolean. -/
def seatTaken (plan : SeatingPlan) (row column : Int) : Bool :=
  rowGet ((mapGet plan.seatMap row).getD []) column

/-- JS `String.prototype.trim`: strip leading and trailing whitespace. -/
def jsTrim (s : String) : String :=
  String.mk
    (((s.toList.dropWhile Char.isWhitespace).reverse.dropWhile
      Char.isWhitespace).reverse)

/-- Engine of `jsSplitSpace`: cut the character list at every space. -/
def splitSpaceAux : List Char → List Char → List String
  | [], acc => [String.mk acc.reverse]
  | ' ' :: rest, acc => String.mk acc.reverse :: splitSpaceAux rest []
  | c :: rest, acc => splitSpaceAux rest (c :: acc)

/-- JS `s.split(" ")`: pieces between single spaces, keeping empty pieces
(`"a  b".split(" ")` is `["a", "", "b"]`, `"".split(" ")` is `[""]`). -/
def jsSplitSpace (s : String) : List String :=
  splitSpaceAux s.toList []

/-- Digit list to number, most significant first. -/
def digitsToNat (ds : List Char) : Nat :=
  ds.foldl (fun acc d => acc * 10 + (d.toNat - '0'.toNat)) 0

/-- JS `parseInt(s, 10)`: skip leading whitespace, optional sign, then the
longest digit prefix; `NaN` (here `none`) when no digit follows. -/
def parseIntJS (s : String) : Option Int :=
  let l := s.toList.dropWhile Char.isWhitespace
  match l with
  | '+' :: t =>
    let ds := t.takeWhile Char.isDigit
    if ds.isEmpty then none else some (digitsToNat ds : Nat)
  | '-' :: t =>
    let ds := t.takeWhile Char.isDigit
    if ds.isEmpty then none else some (-(digitsToNat ds : Nat) : Int)
  | _ =>
    let ds := l.takeWhile Char.isDigit
    if ds.isEmpty then none else some (digitsToNat ds : Nat)

/-- True iff JS `parseFloat(input)` is `NaN`: after optional whitespace and
sign there is neither a digit nor a point followed by a digit.  (`parseFloat`
also accepts an `Infinity` literal; no string this program builds contains
one, and such a string would in any case fail the regex capture that feeds
this predicate.) -/
def parseFloatIsNaN (input : String) : Bool :=
  let startsWithNumeric : List Char → Bool := fun l =>
    match l with
    | '.' :: c :: _ => c.isDigit
    | c :: _ => c.isDigit
    | [] => false
  match input.toList.dropWhile Char.isWhitespace with
  | '-' :: rest => !(startsWithNumeric rest)
  | '+' :: rest => !(startsWithNumeric rest)
  | l => !(startsWithNumeric l)

/-- `isDecimal` from the source:
`!Number.isNaN(parseFloat(input)) && Number.isFinite(Number(input)) && input.includes "."`.
Every string the program applies this to is a regex capture of shape
`-?\d+(\.\d+)?`, for which `Number(input)` is a small finite decimal, so the
`isFinite` conjunct is always true and is not modelled separately. -/
def isDecimal (input : String) : Bool :=
  !(parseFloatIsNaN input) && input.toList.contains '.'

/-- `isNegative` from the source: `input.startsWith("-")`. -/
def isNegative (input : String) : Bool :=
  match input.toList with
  | '-' :: _ => true
  | _ => false

/-- Match one `-?\d+(?:\.\d+)?` number of the seat-token regex, returning the
captured text and the remaining characters.  Skipping an available fraction
can never help the rest of the regex (the next expected character is `C` or
end of input, never `.`), so the greedy parse is equivalent to the
backtracking regex. -/
def matchNumber (l : List Char) : Option (String × List Char) :=
  let (negPart, rest) :=
    match l with
    | '-' :: t => (['-'], t)
    | _ => (([] : List Char), l)
  let ds := rest.takeWhile Char.isDigit
  let rest2 := rest.dropWhile Char.isDigit
  if ds.isEmpty then none
  else
    match rest2 with
    | '.' :: t =>
      let fs := t.takeWhile Char.isDigit
      let rest3 := t.dropWhile Char.isDigit
      if fs.isEmpty then some (String.mk (negPart ++ ds), rest2)
      else some (String.mk (negPart ++ ds ++ '.' :: fs), rest3)
    | _ => some (String.mk (negPart ++ ds), rest2)

/-- The anchored regex `^R(-?\d+(?:\.\d+)?)C(-?\d+(?:\.\d+)?)$` of
`parseSeatLocation`, returning the two captures. -/
def regexSeatToken (s : String) : Option (String × String) :=
  match s.toList with
  | 'R' :: rest =>
    match matchNumber rest with
    | some (m1, rest1) =>
      match rest1 with
      | 'C' :: rest2 =>
        match matchNumber rest2 with
        | some (m2, rest3) => if rest3.isEmpty then some (m1, m2) else none
        | none => none
      | _ => none
    | none => none
  | _ => none

/-- `validateSeatLocation` from the source.  The captures are always defined
strings, so the `undefined` guard of the source never fires.  JS
`location.toString()` on the two-element array is `row ++ "," ++ column`. -/
def validateSeatLocation (location : String × String)
    (seatingPlan : SeatingPlan) : Except String Unit :=
  let (row, column) := location
  if isDecimal row ∨ isDecimal column then
    .error ("Invalid input, no decimals allowed: " ++ row ++ "," ++ column)
  else if isNegative row ∨ isNegative column then
    .error ("Invalid input, no negative numbers allowed: " ++ row ++ "," ++ column)
  else
    match parseIntJS row, parseIntJS column with
    | some rowNumber, some columnNumber =>
      if rowNumber < 1 ∨ columnNumber < 1 then
        .error ("Invalid location, location out of bounds: " ++ row ++ "," ++ column)
      else if rowNumber > seatingPlan.config.rows ∨
          columnNumber > seatingPlan.config.columns then
        .error ("Invalid location, location out of bounds: " ++ row ++ "," ++ column)
      else .ok ()
    | _, _ => .error ("Invalid input: " ++ row ++ "," ++ column)

/-- `parseSeatLocation` from the source: regex match, validation, then
1-based to 0-based conversion.  The `none` fallback of the inner match is
unreachable: `validateSeatLocation` already rejected `NaN` components. -/
def parseSeatLocation (input : String) (seatingPlan : SeatingPlan) :
    Except String (Int × Int) :=
  match regexSeatToken input with
  | some (m1, m2) =>
    match validateSeatLocation (m1, m2) seatingPlan with
    | .error e => .error e
    | .ok _ =>
      match parseIntJS m1, parseIntJS m2 with
      | some row, some column => .ok (row - 1, column - 1)
      | _, _ => .error ("Invalid input: " ++ input)
  | none => .error ("Invalid input: " ++ input)

/-- JS `location.toString()` on a `[row, column]` pair. -/
def locToString (location : Int × Int) : String :=
  toString location.1 ++ "," ++ toString location.2

/-- `isSeatAvailable` from the source. -/
def isSeatAvailable (seatingPlan : SeatingPlan) (location : Int × Int) :
    Except String Bool :=
  if location.1 < 0 ∨ location.1 ≥ seatingPlan.config.rows ∨
      location.2 < 0 ∨ location.2 ≥ seatingPlan.config.columns then
    .error ("Invalid location, location out of bounds: " ++ locToString location)
  else
    .ok (!(seatTaken seatingPlan location.1 location.2))

/-- `reserveSeat` from the source: copy-on-write update of one cell.  An
error thrown by `isSeatAvailable` propagates. -/
def reserveSeat (seatingPlan : SeatingPlan) (location : Int × Int) :
    Except String SeatingPlan :=
  match isSeatAvailable seatingPlan location with
  | .error e => .error e
  | .ok avail =>
    if !avail then
      .error ("Seat is not available: " ++ locToString location)
    else
      match mapGet seatingPlan.seatMap location.1 with
      | none => .error ("Row not found: " ++ toString location.1)
      | some oldRow =>
        .ok { seatingPlan with
              seatMap := seatingPlan.seatMap.set location.1.toNat
                (setSeat oldRow location.2) }

structure SeatRange where
  start : Int × Int
  «end» : Int × Int
  center : Option (Int × Int) := none
  output : Option String := none
  score : Option Int := none
deriving DecidableEq, Repr

/-- JSON.stringify on a `SeatRange` object whose fields were assigned in the
order `start`, `end`, `center`, `output`, `score` (undefined fields are
omitted by `stringify`). -/
def jsonSeatRange (range : SeatRange) : String :=
  "\x7b\"start\":[" ++ toString range.start.1 ++ "," ++ toString range.start.2 ++
    "],\"end\":[" ++ toString range.«end».1 ++ "," ++ toString range.«end».2 ++ "]" ++
    (match range.center with
     | some c => ",\"center\":[" ++ toString c.1 ++ "," ++ toString c.2 ++ "]"
     | none => "") ++
    (match range.output with
     | some o => ",\"output\":\"" ++ o ++ "\""
     | none => "") ++
    (match range.score with
     | some s => ",\"score\":" ++ toString s
     | none => "") ++ "\x7d"

/-- `validateSeatRange` from the source. -/
def validateSeatRange (range : SeatRange) : Except String Unit :=
  if range.start.1 ≠ range.«end».1 then
    .error "Only single-row ranges are supported."
  else if range.start.1 > range.«end».1 ∨ range.start.2 > range.«end».2 then
    .error ("Invalid range: " ++ jsonSeatRange range)
  else .ok ()

/-- The `for (j = start; j <= end; j++)` body of `reserveRange`, with the
iteration count made explicit. -/
def reserveRangeLoop (seatingPlan : SeatingPlan) (rowId : Int) :
    Int → Nat → Except String SeatingPlan
  | _, 0 => .ok seatingPlan
  | j, k + 1 =>
    match reserveSeat seatingPlan (rowId, j) with
    | .error e => .error e
    | .ok p => reserveRangeLoop p rowId (j + 1) k

/-- `reserveRange` from the source. -/
def reserveRange (seatingPlan : SeatingPlan) (range : SeatRange) :
    Except String SeatingPlan :=
  match validateSeatRange range with
  | .error e => .error e
  | .ok _ =>
    reserveRangeLoop seatingPlan range.start.1 range.start.2
      (range.«end».2 + 1 - range.start.2).toNat

/-- `handleInitialReservations` from the source: parse and reserve each token
in order; the first thrown error aborts the whole loop. -/
def handleInitialReservations (seatingPlan : SeatingPlan) :
    List String → Except String SeatingPlan
  | [] => .ok seatingPlan
  | reservation :: rest =>
    match parseSeatLocation reservation seatingPlan with
    | .error e => .error e
    | .ok location =>
      match reserveSeat seatingPlan location with
      | .error e => .error e
      | .ok currentPlan => handleInitialReservations currentPlan rest

/-- `getManhattanDistance` from the source.  `Math.abs` on integers is
`Int.natAbs`; `Math.floor` of an integer sum is the identity. -/
def getManhattanDistance (location1 : TopCenterLocation)
    (location2 : Int × Int) : Int :=
  match location1 with
  | .double left right =>
    let (leftRow, leftColumn) := left
    let (rightRow, rightColumn) := right
    let (destinationRow, destinationColumn) := location2
    if (leftRow = destinationRow ∧ leftColumn = destinationColumn) ∨
        (rightRow = destinationRow ∧ rightColumn = destinationColumn) then 0
    else
      let leftDistance : Int :=
        ((leftRow - destinationRow).natAbs : Int) +
          ((leftColumn - destinationColumn).natAbs : Int)
      let rightDistance : Int :=
        ((rightRow - destinationRow).natAbs : Int) +
          ((rightColumn - destinationColumn).natAbs : Int)
      min leftDistance rightDistance
  | .single row1 column1 =>
    ((row1 - location2.1).natAbs : Int) + ((column1 - location2.2).natAbs : Int)

/-- `getSeatRangeInStringFormat` from the source. -/
def getSeatRangeInStringFormat (range : SeatRange) : String :=
  if range.start.1 = range.«end».1 ∧ range.start.2 = range.«end».2 then
    "R" ++ toString (range.start.1 + 1) ++ "C" ++ toString (range.start.2 + 1)
  else
    "R" ++ toString (range.start.1 + 1) ++ "C" ++ toString (range.start.2 + 1) ++
      " - R" ++ toString (range.«end».1 + 1) ++ "C" ++ toString (range.«end».2 + 1)

/-- The window-availability scan of `findAllPossibleSeatRanges`: every offset
must be in bounds and unoccupied (`column >= columns || row[column]` breaks). -/
def windowAvailable (config : SeatMapConfig) (row : List Bool)
    (amountOfSeats columnId : Int) : Bool :=
  (List.range amountOfSeats.toNat).all fun offset =>
    let column := columnId + (offset : Int)
    decide (column < config.columns) && !(rowGet row column)

/-- The score accumulated for one found window: the sum of the distances of
each seat of the window to the center. -/
def scoreOfWindow (topCenter : TopCenterLocation)
    (rowId columnId amountOfSeats : Int) : Int :=
  ((List.range amountOfSeats.toNat).map fun i =>
    getManhattanDistance topCenter (rowId, columnId + (i : Int))).sum

/-- The `SeatRange` object built and pushed for one available window. -/
def mkFoundRange (topCenter : TopCenterLocation)
    (rowId columnId amountOfSeats : Int) : SeatRange :=
  let range : SeatRange :=
    { start := (rowId, columnId), «end» := (rowId, columnId + amountOfSeats - 1) }
  { range with
    output := some (getSeatRangeInStringFormat range)
    score := some (scoreOfWindow topCenter rowId columnId amountOfSeats) }

/-- The per-row part of `findAllPossibleSeatRanges`: skip an absent or fully
occupied row, else collect every available window in ascending column order. -/
def rangesInRow (seatingPlan : SeatingPlan) (amountOfSeats rowId : Int) :
    List SeatRange :=
  match mapGet seatingPlan.seatMap rowId with
  | none => []
  | some row =>
    if row.all (fun seat => seat) then []
    else
      ((intsUpTo (seatingPlan.config.columns - amountOfSeats + 1)).filter
        (windowAvailable seatingPlan.config row amountOfSeats)).map
        (fun columnId => mkFoundRange seatingPlan.center rowId columnId amountOfSeats)

/-- `findAllPossibleSeatRanges` from the source (ticks and logging omitted). -/
def findAllPossibleSeatRanges (seatingPlan : SeatingPlan) (amountOfSeats : Int) :
    List SeatRange :=
  (intsUpTo seatingPlan.config.rows).flatMap (rangesInRow seatingPlan amountOfSeats)

/-- `curr.score ?? Infinity < best.score ?? Infinity` (a missing score is
`Infinity`). -/
def ltInf : Option Int → Option Int → Bool
  | some x, some y => x < y
  | some _, none => true
  | none, _ => false

/-- `curr.score ?? Infinity === best.score ?? Infinity`. -/
def eqInf : Option Int → Option Int → Bool
  | some x, some y => x == y
  | none, none => true
  | _, _ => false

/-- The reducer of `findBestSeatRange`: prefer a strictly lower score, and on
an exact score tie prefer the smaller (front) row. -/
def bestStep (best curr : SeatRange) : SeatRange :=
  if ltInf curr.score best.score then curr
  else if eqInf curr.score best.score ∧ curr.start.1 < best.start.1 then curr
  else best

/-- `findBestSeatRange` from the source: `Array.reduce` without an initial
value is a left fold over the tail seeded with the head, and throws on an
empty array only after the explicit empty check. -/
def findBestSeatRange (seatingPlan : SeatingPlan) (amountOfSeats : Int) :
    Except String SeatRange :=
  match findAllPossibleSeatRanges seatingPlan amountOfSeats with
  | [] => .error ("No possible ranges found: " ++ toString amountOfSeats)
  | h :: t => .ok (t.foldl bestStep h)

/-- `getAvailableSeatCount` from the source. -/
def getAvailableSeatCount (seatingPlan : SeatingPlan) : Int :=
  ((intsUpTo seatingPlan.config.rows).map fun rowId =>
    match mapGet seatingPlan.seatMap rowId with
    | none => 0
    | some row =>
      (((intsUpTo seatingPlan.config.columns).filter
        (fun columnId => !(rowGet row columnId))).length : Int)).sum

/-- Modelled from the spec: the `cli-options` module is not part of the
sources; §6 of the spec gives its configuration surface as `rows` (default 3)
and `columns` (default 11), with explicit overrides passed through. -/
def getCliOptions (cliOverrides : PartialSeatMapConfig) : SeatMapConfig :=
  { rows := cliOverrides.rows.getD defaultConfig.rows
    columns := cliOverrides.columns.getD defaultConfig.columns }

/-- One iteration of `Seatly`'s request loop: the `try` block either commits
a best range and records its label, or any thrown error is caught, records
`"Not Available"` and leaves the plan as it was (`seatingPlan` is only
reassigned on success). -/
def processRequest (seatingPlan : SeatingPlan) (inputAmount : String) :
    String × SeatingPlan :=
  match parseIntJS inputAmount with
  | none => ("Not Available", seatingPlan)
  | some amount =>
    match findBestSeatRange seatingPlan amount with
    | .error _ => ("Not Available", seatingPlan)
    | .ok bestRange =>
      match reserveRange seatingPlan bestRange with
      | .error _ => ("Not Available", seatingPlan)
      | .ok p => (getSeatRangeInStringFormat bestRange, p)

/-- `Seatly`'s request loop: one output line per request, threading the plan. -/
def processRequests (seatingPlan : SeatingPlan) :
    List String → List String × SeatingPlan
  | [] => ([], seatingPlan)
  | req :: rest =>
    let (out, p) := processRequest seatingPlan req
    let (outs, pF) := processRequests p rest
    (out :: outs, pF)

/-- `Seatly`'s initial-reservation phase: a truthy first line is split on
spaces and handed to `handleInitialReservations`; any thrown error is caught
and the plan assignment is skipped, so the plan stays exactly as it was
before the call. -/
def seatlyInitialPlan (seatingPlan : SeatingPlan) (reservedLine : Option String) :
    SeatingPlan :=
  match reservedLine with
  | none => seatingPlan
  | some s =>
    if s = "" then seatingPlan
    else
      match handleInitialReservations seatingPlan (jsSplitSpace s) with
      | .ok p => p
      | .error _ => seatingPlan

/-- The plan `Seatly` holds after the initial-reservation phase, given the
input lines. -/
def seatlyPlanAfterInit (lines : List String) (plan0 : SeatingPlan) : SeatingPlan :=
  seatlyInitialPlan plan0 (lines.head?.map jsTrim)

/-- `Seatly` from the source: `lines.shift()` removes the reserved-seat line,
the remaining lines are trimmed requests, and the trailing line is the
available-seat count.  Only the `initSeatingPlan` config error escapes. -/
def Seatly (lines : List String) (cliOverrides : PartialSeatMapConfig) :
    Except String (List String) :=
  let opts := getCliOptions cliOverrides
  match initSeatingPlan (some { rows := some opts.rows, columns := some opts.columns }) with
  | .error e => .error e
  | .ok plan0 =>
    let plan1 := seatlyPlanAfterInit lines plan0
    let requests := lines.tail.map jsTrim
    let (output, planF) := processRequests plan1 requests
    .ok (output ++ [toString (getAvailableSeatCount planF)])

/-! ## Specification-side definitions

These definitions follow the words of the specification (not the source) and
are compared against the source-derived definitions above. -/

/-- Manhattan distance between two integer coordinates, as the spec words it:
`|Δrow| + |Δcolumn|` in exact integer arithmetic. -/
def manhattan (p loc : Int × Int) : Int :=
  ((p.1 - loc.1).natAbs : Int) + ((p.2 - loc.2).natAbs : Int)

/-- Spec wording: the Manhattan distance to the nearest of the one or two
center-reference coordinates. -/
def specNearestDist (center : TopCenterLocation) (loc : Int × Int) : Int :=
  match center with
  | .single r c => manhattan (r, c) loc
  | .double a b => min (manhattan a loc) (manhattan b loc)

/-- Spec wording of a candidate's score: the sum, over each seat `(row, col)`
in the range's inclusive column span, of its distance to the nearest
center-reference coordinate. -/
def spanNearestSum (center : TopCenterLocation) (range : SeatRange) : Int :=
  ((List.range (range.«end».2 + 1 - range.start.2).toNat).map fun i =>
    specNearestDist center (range.start.1, range.start.2 + (i : Int))).sum

/-- Spec wording of the candidate set for C2: the windows `(row, startColumn)`
with `0 ≤ startColumn ≤ columns - n` whose `n` cells starting at `startColumn`
are all unoccupied, enumerated row-major with ascending start column. -/
def specWindows (plan : SeatingPlan) (n : Int) : List (Int × Int) :=
  (intsUpTo plan.config.rows).flatMap fun r =>
    ((intsUpTo (plan.config.columns - n + 1)).filter fun c =>
      (List.range n.toNat).all fun off => !(seatTaken plan r (c + (off : Int)))).map
      fun c => (r, c)

/-- The spec's §3 grid invariant: the occupancy dimensions always equal
`(rows, columns)`.  Every plan the program builds satisfies it. -/
def wellFormed (plan : SeatingPlan) : Prop :=
  plan.seatMap.length = plan.config.rows.toNat ∧
  ∀ row ∈ plan.seatMap, row.length = plan.config.columns.toNat

instance : DecidablePred wellFormed := fun plan => by
  unfold wellFormed; infer_instance

/-- A fresh 1×3 plan, used as a concrete input by witnesses. -/
def demoPlan : SeatingPlan :=
  { config := { rows := 1, columns := 3 }
    seatMap := [[false, false, false]]
    center := .single 0 1 }

/-! ## Basic lemmas -/

theorem length_intsUpTo (k : Int) : (intsUpTo k).length = k.toNat := by
  simp [intsUpTo]

theorem mem_intsUpTo {x k : Int} : x ∈ intsUpTo k ↔ 0 ≤ x ∧ x < k := by
  simp only [intsUpTo, List.mem_map, List.mem_range, Int.ofNat_eq_natCast]
  constructor
  · rintro ⟨m, hm, rfl⟩; omega
  · rintro ⟨h0, hk⟩; refine ⟨x.toNat, by omega, by omega⟩

theorem rowGet_replicate_false (n : Nat) (c : Int) :
    rowGet (List.replicate n false) c = false := by
  unfold rowGet
  split
  · rfl
  · rcases Nat.lt_or_ge c.toNat n with h | h
    · simp [List.getD_eq_getElem?_getD, List.getElem?_replicate, h]
    · simp [List.getD_eq_getElem?_getD, List.getElem?_replicate, Nat.not_lt.mpr h]

theorem rowGet_nil (c : Int) : rowGet [] c = false := by
  unfold rowGet
  split <;> simp

theorem seatTaken_fresh (config : SeatMapConfig) (center : TopCenterLocation)
    (r c : Int) :
    seatTaken
      { config := config
        seatMap := List.replicate config.rows.toNat
          (List.replicate config.columns.toNat false)
        center := center } r c = false := by
  unfold seatTaken mapGet
  split
  · simp [rowGet_nil]
  · rcases Nat.lt_or_ge r.toNat config.rows.toNat with h | h
    · simp [List.getElem?_replicate, h, rowGet_replicate_false]
    · simp [List.getElem?_replicate, Nat.not_lt.mpr h, rowGet_nil]

theorem getAvailableSeatCount_fresh (config : SeatMapConfig)
    (center : TopCenterLocation) (hr : 1 ≤ config.rows) (hc : 1 ≤ config.columns) :
    getAvailableSeatCount
      { config := config
        seatMap := List.replicate config.rows.toNat
          (List.replicate config.columns.toNat false)
        center := center } = config.rows * config.columns := by
  unfold getAvailableSeatCount
  have hmap :
      ∀ r ∈ intsUpTo config.rows,
        (match mapGet (List.replicate config.rows.toNat
            (List.replicate config.columns.toNat false)) r with
          | none => (0 : Int)
          | some row =>
            (((intsUpTo config.columns).filter
              (fun columnId => !(rowGet row columnId))).length : Int)) =
          (config.columns.toNat : Int) := by
    intro r hrmem
    rcases mem_intsUpTo.mp hrmem with ⟨h0, hlt⟩
    have hget : mapGet (List.replicate config.rows.toNat
        (List.replicate config.columns.toNat false)) r =
        some (List.replicate config.columns.toNat false) := by
      unfold mapGet
      rw [if_neg (by omega)]
      simp [List.getElem?_replicate]
      omega
    have hfil : (intsUpTo config.columns).filter
        (fun columnId => !(rowGet (List.replicate config.columns.toNat false) columnId)) =
        intsUpTo config.columns := by
      rw [List.filter_eq_self]
      intro c _
      simp [rowGet_replicate_false]
    simp only [hget, hfil, length_intsUpTo]
  rw [List.map_congr_left hmap]
  have : (intsUpTo config.rows).map (fun _ => (config.columns.toNat : Int)) =
      List.replicate (intsUpTo config.rows).length (config.columns.toNat : Int) := by
    simp [List.map_const]
  rw [this, List.sum_replicate, length_intsUpTo, nsmul_eq_mul]
  have h1 : ((config.rows.toNat : Int)) = config.rows := Int.toNat_of_nonneg (by omega)
  have h2 : ((config.columns.toNat : Int)) = config.columns := Int.toNat_of_nonneg (by omega)
  rw [h1, h2]

/-! ## Generator lemmas -/

theorem getManhattanDistance_eq_specNearestDist (center : TopCenterLocation)
    (loc : Int × Int) :
    getManhattanDistance center loc = specNearestDist center loc := by
  cases center with
  | single r c => rfl
  | double a b =>
    obtain ⟨ar, ac⟩ := a
    obtain ⟨br, bc⟩ := b
    obtain ⟨lr, lc⟩ := loc
    simp only [getManhattanDistance, specNearestDist, manhattan]
    split
    · rename_i h
      rcases h with ⟨h1, h2⟩ | ⟨h1, h2⟩ <;> subst h1 <;> subst h2 <;> omega
    · rfl

theorem specNearestDist_nonneg (center : TopCenterLocation) (loc : Int × Int) :
    0 ≤ specNearestDist center loc := by
  cases center with
  | single r c => simp only [specNearestDist, manhattan]; positivity
  | double a b =>
    simp only [specNearestDist, manhattan, le_min_iff]
    constructor <;> positivity

theorem mem_rangesInRow {plan : SeatingPlan} {n rowId : Int} {rg : SeatRange} :
    rg ∈ rangesInRow plan n rowId ↔
      ∃ row, mapGet plan.seatMap rowId = some row ∧
        ¬(row.all (fun seat => seat) = true) ∧
        ∃ columnId, (0 ≤ columnId ∧ columnId < plan.config.columns - n + 1) ∧
          windowAvailable plan.config row n columnId = true ∧
          rg = mkFoundRange plan.center rowId columnId n := by
  constructor
  · intro hmem
    unfold rangesInRow at hmem
    cases h : mapGet plan.seatMap rowId with
    | none => simp only [h] at hmem; cases hmem
    | some row =>
      simp only [h] at hmem
      by_cases hall : (row.all (fun seat => seat)) = true
      · rw [if_pos hall] at hmem; cases hmem
      · rw [if_neg hall] at hmem
        rcases List.mem_map.mp hmem with ⟨columnId, hc, rfl⟩
        rcases List.mem_filter.mp hc with ⟨hcmem, hwin⟩
        rcases mem_intsUpTo.mp hcmem with ⟨h0, h1⟩
        exact ⟨row, rfl, hall, columnId, ⟨h0, h1⟩, hwin, rfl⟩
  · rintro ⟨row, h, hall, columnId, ⟨h0, h1⟩, hwin, rfl⟩
    unfold rangesInRow
    simp only [h]
    rw [if_neg hall]
    exact List.mem_map.mpr
      ⟨columnId, List.mem_filter.mpr ⟨mem_intsUpTo.mpr ⟨h0, h1⟩, hwin⟩, rfl⟩

theorem mem_findAllPossibleSeatRanges {plan : SeatingPlan} {n : Int}
    {rg : SeatRange} :
    rg ∈ findAllPossibleSeatRanges plan n ↔
      ∃ rowId, (0 ≤ rowId ∧ rowId < plan.config.rows) ∧
        rg ∈ rangesInRow plan n rowId := by
  simp [findAllPossibleSeatRanges, List.mem_flatMap, mem_intsUpTo, and_assoc]

/-- Every generated range's shape: same row, end column `start + n - 1`,
and its cached fields. -/
theorem findAll_range_shape {plan : SeatingPlan} {n : Int} {rg : SeatRange}
    (h : rg ∈ findAllPossibleSeatRanges plan n) :
    rg.«end» = (rg.start.1, rg.start.2 + n - 1) ∧
    rg.score = some (scoreOfWindow plan.center rg.start.1 rg.start.2 n) ∧
    rg.center = none := by
  rcases mem_findAllPossibleSeatRanges.mp h with ⟨rowId, _, hmem⟩
  rcases mem_rangesInRow.mp hmem with ⟨row, _, _, columnId, _, _, rfl⟩
  exact ⟨rfl, rfl, rfl⟩

theorem spanNearestSum_mkFoundRange (center : TopCenterLocation)
    (rowId columnId n : Int) :
    spanNearestSum center (mkFoundRange center rowId columnId n) =
      scoreOfWindow center rowId columnId n := by
  unfold spanNearestSum mkFoundRange scoreOfWindow
  simp only []
  have hcnt : columnId + n - 1 + 1 - columnId = n := by ring
  rw [hcnt]
  exact congrArg List.sum (List.map_congr_left fun i _ =>
    (getManhattanDistance_eq_specNearestDist center (rowId, columnId + (i : Int))).symm)

theorem all_congr_bool {α : Type} {l : List α} {p q : α → Bool}
    (h : ∀ x ∈ l, p x = q x) : l.all p = l.all q := by
  induction l with
  | nil => rfl
  | cons a t ih =>
    simp only [List.all_cons, h a (List.mem_cons_self a t),
      ih (fun x hx => h x (List.mem_cons_of_mem _ hx))]

theorem rowGet_eq_getElem {row : List Bool} {c : Int} (h0 : 0 ≤ c)
    (hlt : c.toNat < row.length) : rowGet row c = row[c.toNat] := by
  unfold rowGet
  rw [if_neg (by omega), List.getD_eq_getElem _ _ hlt]

theorem seatTaken_eq_rowGet {plan : SeatingPlan} {r : Int} {row : List Bool}
    (h : mapGet plan.seatMap r = some row) (c : Int) :
    seatTaken plan r c = rowGet row c := by
  unfold seatTaken
  rw [h]
  rfl

theorem wellFormed_mapGet {plan : SeatingPlan} (hwf : wellFormed plan)
    {r : Int} (h0 : 0 ≤ r) (hlt : r < plan.config.rows) :
    ∃ row, mapGet plan.seatMap r = some row ∧
      row.length = plan.config.columns.toNat := by
  have hlen : r.toNat < plan.seatMap.length := by
    rw [hwf.1]; omega
  refine ⟨plan.seatMap[r.toNat], ?_, hwf.2 _ (List.getElem_mem hlen)⟩
  unfold mapGet
  rw [if_neg (by omega), List.getElem?_eq_getElem hlen]

theorem intsUpTo_nonpos {k : Int} (h : k ≤ 0) : intsUpTo k = [] := by
  unfold intsUpTo
  rw [Int.toNat_of_nonpos h]
  rfl

/-! ## Reservation lemmas -/

theorem getD_setSeat {row : List Bool} {c0 : Int} (h0 : 0 ≤ c0) (j : Nat) :
    (setSeat row c0).getD j false =
      if j = c0.toNat then true else row.getD j false := by
  unfold setSeat
  rw [if_neg (by omega)]
  by_cases hlt : c0.toNat < row.length
  · rw [if_pos hlt]
    simp only [List.getD_eq_getElem?_getD, List.getElem?_set]
    by_cases hj : c0.toNat = j
    · subst hj
      simp [hlt]
    · have hj2 : ¬(j = c0.toNat) := fun hh => hj hh.symm
      simp [hj, hj2]
  · rw [if_neg hlt]
    simp only [List.getD_eq_getElem?_getD, List.getElem?_append,
      List.getElem?_replicate, List.length_append, List.length_replicate]
    have hcl : row.length + (c0.toNat - row.length) = c0.toNat := by omega
    rw [hcl]
    rcases Nat.lt_or_ge j c0.toNat with hjc | hjc
    · rw [if_pos hjc]
      rcases Nat.lt_or_ge j row.length with hjr | hjr
      · rw [if_pos hjr, if_neg (by omega)]
      · rw [if_neg (by omega), if_pos (by omega), if_neg (by omega),
          List.getElem?_eq_none (by omega)]
        rfl
    · rw [if_neg (by omega)]
      rcases Nat.eq_or_lt_of_le hjc with hje | hje
      · rw [if_pos hje.symm]
        have hz : j - c0.toNat = 0 := by omega
        rw [hz]
        rfl
      · rw [if_neg (by omega),
          List.getElem?_eq_none
            (by simp only [List.length_cons, List.length_nil]; omega),
          List.getElem?_eq_none (by omega)]

theorem rowGet_setSeat {row : List Bool} {c0 : Int} (h0 : 0 ≤ c0) (c : Int) :
    rowGet (setSeat row c0) c = if c = c0 then true else rowGet row c := by
  by_cases hcneg : c < 0
  · have hne : ¬(c = c0) := by omega
    simp only [rowGet, if_pos hcneg, if_neg hne]
  · simp only [rowGet, if_neg hcneg]
    rw [getD_setSeat h0]
    by_cases he : c = c0
    · subst he
      simp
    · rw [if_neg (by omega : ¬ c.toNat = c0.toNat), if_neg he]

theorem reserveSeat_ok_inv {plan : SeatingPlan} {loc : Int × Int}
    {p' : SeatingPlan} (h : reserveSeat plan loc = .ok p') :
    (0 ≤ loc.1 ∧ loc.1 < plan.config.rows ∧
      0 ≤ loc.2 ∧ loc.2 < plan.config.columns) ∧
    seatTaken plan loc.1 loc.2 = false ∧
    ∃ oldRow, mapGet plan.seatMap loc.1 = some oldRow ∧
      p' = { plan with seatMap :=
        plan.seatMap.set loc.1.toNat (setSeat oldRow loc.2) } := by
  unfold reserveSeat isSeatAvailable at h
  by_cases hb : loc.1 < 0 ∨ loc.1 ≥ plan.config.rows ∨
      loc.2 < 0 ∨ loc.2 ≥ plan.config.columns
  · rw [if_pos hb] at h
    cases h
  · rw [if_neg hb] at h
    simp only [] at h
    by_cases htk : seatTaken plan loc.1 loc.2 = true
    · rw [htk] at h
      cases h
    · have htk' : seatTaken plan loc.1 loc.2 = false := by
        revert htk; cases seatTaken plan loc.1 loc.2 <;> simp
      rw [htk'] at h
      simp only [Bool.not_false, Bool.not_true, if_false] at h
      cases hget : mapGet plan.seatMap loc.1 with
      | none => rw [hget] at h; cases h
      | some oldRow =>
        rw [hget] at h
        cases h
        exact ⟨by omega, htk', oldRow, rfl, rfl⟩

theorem seatTaken_reserveSeat_ok {plan : SeatingPlan} {loc : Int × Int}
    {p' : SeatingPlan} (h : reserveSeat plan loc = .ok p') (r c : Int) :
    seatTaken p' r c =
      (seatTaken plan r c || (decide (r = loc.1) && decide (c = loc.2))) := by
  obtain ⟨⟨h1, h2, h3, h4⟩, hfree, oldRow, hget, rfl⟩ := reserveSeat_ok_inv h
  have hget' : plan.seatMap[loc.1.toNat]? = some oldRow := by
    unfold mapGet at hget
    rwa [if_neg (by omega)] at hget
  have hlen : loc.1.toNat < plan.seatMap.length := by
    rcases List.getElem?_eq_some_iff.mp hget' with ⟨hl, _⟩
    exact hl
  unfold seatTaken mapGet
  by_cases hrneg : r < 0
  · have hne : ¬(r = loc.1) := by omega
    simp [hrneg, hne]
  · rw [if_neg hrneg, if_neg hrneg]
    simp only [List.getElem?_set]
    by_cases hre : r = loc.1
    · have hte : loc.1.toNat = r.toNat := by omega
      have hget2 : plan.seatMap[r.toNat]? = some oldRow := by
        rw [← hte]
        exact hget'
      rw [if_pos hte, if_pos hlen]
      simp only [Option.getD_some]
      rw [hget2]
      simp only [Option.getD_some]
      rw [rowGet_setSeat h3 c]
      by_cases hce : c = loc.2
      · simp [hce, hre]
      · simp [hce, hre]
    · have hte : ¬(loc.1.toNat = r.toNat) := by omega
      rw [if_neg hte]
      simp [hre]

/-- The relation every grid-updating operation preserves: same config, the
same rows present, and every occupied cell stays occupied. -/
def planStep (p q : SeatingPlan) : Prop :=
  q.config = p.config ∧
  (∀ r : Int, (mapGet q.seatMap r).isSome = (mapGet p.seatMap r).isSome) ∧
  (∀ r c : Int, seatTaken p r c = true → seatTaken q r c = true)

theorem planStep_refl (p : SeatingPlan) : planStep p p :=
  ⟨rfl, fun _ => rfl, fun _ _ h => h⟩

theorem planStep_trans {p q s : SeatingPlan} (h1 : planStep p q)
    (h2 : planStep q s) : planStep p s :=
  ⟨h2.1.trans h1.1, fun r => (h2.2.1 r).trans (h1.2.1 r),
    fun r c h => h2.2.2 r c (h1.2.2 r c h)⟩

theorem reserveSeat_planStep {plan : SeatingPlan} {loc : Int × Int}
    {p' : SeatingPlan} (h : reserveSeat plan loc = .ok p') :
    planStep plan p' := by
  obtain ⟨⟨h1, h2, h3, h4⟩, hfree, oldRow, hget, hp'⟩ := reserveSeat_ok_inv h
  refine ⟨by rw [hp'], ?_, ?_⟩
  · intro r
    rw [hp']
    unfold mapGet
    by_cases hr : r < 0
    · rw [if_pos hr, if_pos hr]
    · rw [if_neg hr, if_neg hr]
      simp only [List.getElem?_set]
      by_cases he : loc.1.toNat = r.toNat
      · rw [if_pos he]
        have hget' : plan.seatMap[loc.1.toNat]? = some oldRow := by
          unfold mapGet at hget
          rwa [if_neg (by omega)] at hget
        have hlen : loc.1.toNat < plan.seatMap.length :=
          (List.getElem?_eq_some_iff.mp hget').1
        rw [if_pos hlen, ← he, hget']
        rfl
      · rw [if_neg he]
  · intro r c htk
    rw [seatTaken_reserveSeat_ok h r c, htk]
    rfl

theorem getAvailableSeatCount_mono {p q : SeatingPlan} (h : planStep p q) :
    getAvailableSeatCount q ≤ getAvailableSeatCount p := by
  obtain ⟨hcfg, hrows, hmono⟩ := h
  unfold getAvailableSeatCount
  rw [hcfg]
  apply List.sum_le_sum
  intro r _
  cases hq : mapGet q.seatMap r with
  | none =>
    cases hp : mapGet p.seatMap r with
    | none => exact le_refl _
    | some rowp =>
      have := hrows r
      rw [hq, hp] at this
      cases this
  | some rowq =>
    cases hp : mapGet p.seatMap r with
    | none =>
      have := hrows r
      rw [hq, hp] at this
      cases this
    | some rowp =>
      simp only []
      have hsub : ((intsUpTo p.config.columns).filter
          (fun columnId => !(rowGet rowq columnId))).Sublist
          ((intsUpTo p.config.columns).filter
            (fun columnId => !(rowGet rowp columnId))) := by
        apply List.monotone_filter_right
        intro c hc
        have hiff : rowGet rowp c = true → rowGet rowq c = true := by
          intro hrp
          have := hmono r c (by rw [seatTaken_eq_rowGet hp]; exact hrp)
          rwa [seatTaken_eq_rowGet hq] at this
        revert hc hiff
        cases rowGet rowp c <;> cases rowGet rowq c <;> simp
      exact Int.ofNat_le.mpr hsub.length_le

theorem reserveRangeLoop_planStep {rowId : Int} :
    ∀ (k : Nat) (plan : SeatingPlan) (j : Int) (p' : SeatingPlan),
      reserveRangeLoop plan rowId j k = .ok p' → planStep plan p' := by
  intro k
  induction k with
  | zero =>
    intro plan j p' h
    cases h
    exact planStep_refl _
  | succ k ih =>
    intro plan j p' h
    unfold reserveRangeLoop at h
    cases hrs : reserveSeat plan (rowId, j) with
    | error e => rw [hrs] at h; cases h
    | ok p1 =>
      rw [hrs] at h
      exact planStep_trans (reserveSeat_planStep hrs) (ih p1 (j + 1) p' h)

theorem reserveRange_planStep {plan : SeatingPlan} {range : SeatRange}
    {p' : SeatingPlan} (h : reserveRange plan range = .ok p') :
    planStep plan p' := by
  unfold reserveRange at h
  cases hv : validateSeatRange range with
  | error e => rw [hv] at h; cases h
  | ok u =>
    rw [hv] at h
    exact reserveRangeLoop_planStep _ plan range.start.2 p' h

theorem handleInitialReservations_planStep :
    ∀ (tokens : List String) (plan p' : SeatingPlan),
      handleInitialReservations plan tokens = .ok p' → planStep plan p' := by
  intro tokens
  induction tokens with
  | nil =>
    intro plan p' h
    cases h
    exact planStep_refl _
  | cons t rest ih =>
    intro plan p' h
    unfold handleInitialReservations at h
    cases hp : parseSeatLocation t plan with
    | error e => rw [hp] at h; cases h
    | ok loc =>
      simp only [hp] at h
      cases hrs : reserveSeat plan loc with
      | error e => rw [hrs] at h; cases h
      | ok p1 =>
        simp only [hrs] at h
        exact planStep_trans (reserveSeat_planStep hrs) (ih p1 p' h)

theorem processRequest_planStep :
    ∀ (plan : SeatingPlan) (req out : String) (p' : SeatingPlan),
      processRequest plan req = (out, p') → planStep plan p' := by
  intro plan req out p' h
  unfold processRequest at h
  cases hpi : parseIntJS req with
  | none =>
    simp only [hpi] at h
    cases h
    exact planStep_refl plan
  | some amount =>
    simp only [hpi] at h
    cases hbf : findBestSeatRange plan amount with
    | error e =>
      simp only [hbf] at h
      cases h
      exact planStep_refl plan
    | ok bestRange =>
      simp only [hbf] at h
      cases hrr : reserveRange plan bestRange with
      | error e =>
        simp only [hrr] at h
        cases h
        exact planStep_refl plan
      | ok p =>
        simp only [hrr] at h
        cases h
        exact reserveRange_planStep hrr

theorem reserveRangeLoop_ok_sets {rowId : Int} :
    ∀ (k : Nat) (plan : SeatingPlan) (j : Int) (p' : SeatingPlan),
      reserveRangeLoop plan rowId j k = .ok p' →
      (∀ c, j ≤ c → c < j + k → seatTaken p' rowId c = true) ∧
      (∀ r c, (r ≠ rowId ∨ c < j ∨ j + k ≤ c) →
        seatTaken p' r c = seatTaken plan r c) := by
  intro k
  induction k with
  | zero =>
    intro plan j p' h
    cases h
    exact ⟨fun c h1 h2 => by omega, fun r c _ => rfl⟩
  | succ k ih =>
    intro plan j p' h
    unfold reserveRangeLoop at h
    cases hrs : reserveSeat plan (rowId, j) with
    | error e => rw [hrs] at h; cases h
    | ok p1 =>
      simp only [hrs] at h
      obtain ⟨ihspan, ihout⟩ := ih p1 (j + 1) p' h
      constructor
      · intro c h1 h2
        by_cases hc : c = j
        · subst hc
          rw [ihout rowId c (Or.inr (Or.inl (by omega))),
            seatTaken_reserveSeat_ok hrs rowId c]
          simp
        · exact ihspan c (by omega) (by omega)
      · intro r c hcond
        have hcond' : r ≠ rowId ∨ c < j + 1 ∨ (j + 1) + (k : Int) ≤ c := by
          rcases hcond with hh | hh | hh
          · exact Or.inl hh
          · exact Or.inr (Or.inl (by omega))
          · exact Or.inr (Or.inr (by push_cast at hh ⊢; omega))
        rw [ihout r c hcond', seatTaken_reserveSeat_ok hrs r c]
        rcases hcond with hh | hh | hh
        · simp [hh]
        · have : ¬(c = j) := by omega
          simp [this]
        · have : ¬(c = j) := by push_cast at hh; omega
          simp [this]

theorem reserveRangeLoop_taken_err {rowId : Int} :
    ∀ (k : Nat) (plan : SeatingPlan) (j c : Int),
      j ≤ c → c < j + k → seatTaken plan rowId c = true →
      ∀ p', reserveRangeLoop plan rowId j k ≠ .ok p' := by
  intro k
  induction k with
  | zero =>
    intro plan j c h1 h2 htk p' h
    omega
  | succ k ih =>
    intro plan j c h1 h2 htk p' h
    unfold reserveRangeLoop at h
    cases hrs : reserveSeat plan (rowId, j) with
    | error e => rw [hrs] at h; cases h
    | ok p1 =>
      simp only [hrs] at h
      by_cases hc : c = j
      · subst hc
        have hfree := (reserveSeat_ok_inv hrs).2.1
        rw [htk] at hfree
        cases hfree
      · refine ih p1 (j + 1) c (by omega) (by push_cast at h2 ⊢; omega) ?_ p' h
        rw [seatTaken_reserveSeat_ok hrs rowId c, htk]
        rfl

theorem reserveRange_err_of_inverted {plan : SeatingPlan} {range : SeatRange}
    (h1 : range.start.1 = range.«end».1) (h2 : range.«end».2 < range.start.2) :
    reserveRange plan range =
      .error ("Invalid range: " ++ jsonSeatRange range) := by
  unfold reserveRange validateSeatRange
  rw [if_neg (not_not_intro h1), if_pos (Or.inr (by omega))]

theorem validateSeatRange_ok_inv {range : SeatRange} {u : Unit}
    (h : validateSeatRange range = .ok u) :
    range.start.1 = range.«end».1 ∧ range.start.2 ≤ range.«end».2 := by
  unfold validateSeatRange at h
  by_cases h1 : range.start.1 ≠ range.«end».1
  · rw [if_pos h1] at h
    cases h
  · rw [if_neg h1] at h
    by_cases h2 : range.start.1 > range.«end».1 ∨ range.start.2 > range.«end».2
    · rw [if_pos h2] at h
      cases h
    · rw [if_neg h2] at h
      push_neg at h1 h2
      exact ⟨h1, h2.2⟩

/-! ## Selector lemmas -/

/-- The preorder the reducer of `findBestSeatRange` minimises: strictly lower
score, or equal score and a row no further back. -/
def rangeLe (a b : SeatRange) : Prop :=
  ltInf a.score b.score = true ∨
    (eqInf a.score b.score = true ∧ a.start.1 ≤ b.start.1)

theorem rangeLe_refl (a : SeatRange) : rangeLe a a := by
  right
  refine ⟨?_, le_refl _⟩
  cases a.score <;> simp [eqInf]

theorem rangeLe_trans {a b c : SeatRange} (h1 : rangeLe a b)
    (h2 : rangeLe b c) : rangeLe a c := by
  unfold rangeLe at h1 h2 ⊢
  cases ha : a.score <;> cases hb : b.score <;> cases hc : c.score <;>
    simp_all [ltInf, eqInf] <;> omega

theorem bestStep_eq_or (a b : SeatRange) : bestStep a b = a ∨ bestStep a b = b := by
  unfold bestStep
  split
  · right; rfl
  · split
    · right; rfl
    · left; rfl

theorem bestStep_le_left (a b : SeatRange) : rangeLe (bestStep a b) a := by
  unfold bestStep
  split
  · rename_i h
    exact Or.inl h
  · split
    · rename_i h
      exact Or.inr ⟨h.1, le_of_lt h.2⟩
    · exact rangeLe_refl a

theorem bestStep_le_right (a b : SeatRange) : rangeLe (bestStep a b) b := by
  unfold bestStep
  split
  · exact rangeLe_refl b
  · split
    · exact rangeLe_refl b
    · rename_i h1 h2
      unfold rangeLe
      cases ha : a.score <;> cases hb : b.score <;>
        simp_all [ltInf, eqInf] <;> try omega

theorem foldl_bestStep_spec (t : List SeatRange) :
    ∀ h : SeatRange, (t.foldl bestStep h) ∈ h :: t ∧
      ∀ x ∈ h :: t, rangeLe (t.foldl bestStep h) x := by
  induction t with
  | nil =>
    intro h
    refine ⟨List.mem_singleton.mpr rfl, ?_⟩
    intro x hx
    rw [List.mem_singleton] at hx
    subst hx
    exact rangeLe_refl x
  | cons curr rest ih =>
    intro h
    rw [List.foldl_cons]
    obtain ⟨ihmem, ihle⟩ := ih (bestStep h curr)
    constructor
    · rcases List.mem_cons.mp ihmem with heq | hrest
      · rw [heq]
        rcases bestStep_eq_or h curr with he | he <;> rw [he]
        · exact List.mem_cons_self _ _
        · exact List.mem_cons_of_mem _ (List.mem_cons_self _ _)
      · exact List.mem_cons_of_mem _ (List.mem_cons_of_mem _ hrest)
    · intro x hx
      rcases List.mem_cons.mp hx with rfl | hx2
      · exact rangeLe_trans (ihle _ (List.mem_cons_self _ _))
          (bestStep_le_left x curr)
      rcases List.mem_cons.mp hx2 with rfl | hx3
      · exact rangeLe_trans (ihle _ (List.mem_cons_self _ _))
          (bestStep_le_right h x)
      · exact ihle x (List.mem_cons_of_mem _ hx3)

theorem findAll_score_isSome {plan : SeatingPlan} {n : Int} {rg : SeatRange}
    (h : rg ∈ findAllPossibleSeatRanges plan n) : ∃ s, rg.score = some s :=
  ⟨_, (findAll_range_shape h).2.1⟩

/-! ## Orchestrator lemmas -/

theorem processRequests_cons (plan : SeatingPlan) (req : String)
    (rest : List String) :
    processRequests plan (req :: rest) =
      ((processRequest plan req).1 ::
        (processRequests (processRequest plan req).2 rest).1,
        (processRequests (processRequest plan req).2 rest).2) := rfl

theorem processRequests_length :
    ∀ (reqs : List String) (plan : SeatingPlan),
      (processRequests plan reqs).1.length = reqs.length := by
  intro reqs
  induction reqs with
  | nil => intro plan; rfl
  | cons req rest ih =>
    intro plan
    rw [processRequests_cons]
    simp [ih]

theorem processRequest_out_shape (plan : SeatingPlan) (req : String) :
    (processRequest plan req).1 = "Not Available" ∨
      ∃ rg, (processRequest plan req).1 = getSeatRangeInStringFormat rg := by
  unfold processRequest
  cases hpi : parseIntJS req with
  | none =>
    simp only [hpi]
    exact Or.inl trivial
  | some amount =>
    simp only [hpi]
    cases hbf : findBestSeatRange plan amount with
    | error e =>
      simp only [hbf]
      exact Or.inl trivial
    | ok bestRange =>
      simp only [hbf]
      cases hrr : reserveRange plan bestRange with
      | error e =>
        simp only [hrr]
        exact Or.inl trivial
      | ok p =>
        simp only [hrr]
        exact Or.inr ⟨bestRange, rfl⟩

theorem processRequests_line :
    ∀ (reqs : List String) (plan : SeatingPlan) (i : Nat), i < reqs.length →
      ((processRequests plan reqs).1)[i]? = some "Not Available" ∨
        ∃ rg, ((processRequests plan reqs).1)[i]? =
          some (getSeatRangeInStringFormat rg) := by
  intro reqs
  induction reqs with
  | nil =>
    intro plan i h
    simp at h
  | cons req rest ih =>
    intro plan i hi
    rw [processRequests_cons]
    cases i with
    | zero =>
      simp only [List.getElem?_cons_zero]
      rcases processRequest_out_shape plan req with hh | ⟨rg, hh⟩
      · exact Or.inl (by rw [hh])
      · exact Or.inr ⟨rg, by rw [hh]⟩
    | succ i' =>
      simp only [List.getElem?_cons_succ]
      exact ih _ i' (by simpa using hi)

theorem Seatly_ok_inv {lines : List String} {overrides : PartialSeatMapConfig}
    {out : List String} (h : Seatly lines overrides = .ok out) :
    ∃ plan0, initSeatingPlan (some { rows := some (getCliOptions overrides).rows, columns := some (getCliOptions overrides).columns }) = .ok plan0 ∧
      out = (processRequests (seatlyPlanAfterInit lines plan0)
          (lines.tail.map jsTrim)).1 ++
        [toString (getAvailableSeatCount
          (processRequests (seatlyPlanAfterInit lines plan0)
            (lines.tail.map jsTrim)).2)] := by
  unfold Seatly at h
  cases hi : initSeatingPlan (some { rows := some (getCliOptions overrides).rows, columns := some (getCliOptions overrides).columns }) with
  | error e =>
    simp only [hi] at h
    cases h
  | ok plan0 =>
    simp only [hi] at h
    cases h
    exact ⟨plan0, rfl, rfl⟩

/-! ## Claim theorems -/

/-- C7: for every grid config with `columns ≥ 1`, the center reference is the
single coordinate `(0, ⌊columns/2⌋)` when `columns` is odd, and the two
coordinates `(0, columns/2 - 1)` and `(0, columns/2)` when even; the distance
the scorer uses against a two-point center is the minimum of the two
Manhattan distances. -/
theorem center_reference_spec :
    ∀ config : SeatMapConfig, 1 ≤ config.columns →
      (config.columns % 2 = 1 →
        getTopCenterLocation config = .single 0 (config.columns / 2)) ∧
      (config.columns % 2 = 0 →
        getTopCenterLocation config =
          .double (0, config.columns / 2 - 1) (0, config.columns / 2)) ∧
      (∀ a b loc, getManhattanDistance (.double a b) loc =
        min (manhattan a loc) (manhattan b loc)) := by
  intro config hc
  have htm : config.columns.tmod 2 = config.columns % 2 :=
    Int.tmod_eq_emod (by omega) (by omega)
  refine ⟨?_, ?_, ?_⟩
  · intro hodd
    unfold getTopCenterLocation
    rw [if_pos (by omega)]
    have hf : (config.columns + 1).fdiv 2 = (config.columns + 1) / 2 :=
      Int.fdiv_eq_ediv _ (by omega)
    rw [hf]
    congr 1
    omega
  · intro heven
    unfold getTopCenterLocation
    rw [if_neg (by omega)]
  · intro a b loc
    obtain ⟨ar, ac⟩ := a
    obtain ⟨br, bc⟩ := b
    obtain ⟨lr, lc⟩ := loc
    simp only [getManhattanDistance, manhattan]
    split
    · rename_i h
      rcases h with ⟨h1, h2⟩ | ⟨h1, h2⟩ <;> subst h1 <;> subst h2 <;> omega
    · rfl

/-- C7 witness: the theorem applied to the 1×3 demo configuration. -/
theorem center_reference_spec_witness :
    getTopCenterLocation demoPlan.config =
      .single 0 (demoPlan.config.columns / 2) :=
  (center_reference_spec demoPlan.config (by decide)).1 (by decide)

/-- C1: every candidate range a seating plan's generator produces carries a
score equal to the sum, over each seat in the range's inclusive column span,
of the Manhattan distance to the nearest of the plan's one or two
center-reference coordinates, in exact integer arithmetic, and that score is
a non-negative integer. -/
theorem candidate_score_spec :
    ∀ (plan : SeatingPlan) (n : Int) (rg : SeatRange),
      rg ∈ findAllPossibleSeatRanges plan n →
      rg.score = some (spanNearestSum plan.center rg) ∧
      0 ≤ spanNearestSum plan.center rg := by
  intro plan n rg h
  rcases mem_findAllPossibleSeatRanges.mp h with ⟨rowId, _, hmem⟩
  rcases mem_rangesInRow.mp hmem with ⟨row, _, _, columnId, _, _, rfl⟩
  constructor
  · show some (scoreOfWindow plan.center rowId columnId n) = _
    rw [spanNearestSum_mkFoundRange]
  · unfold spanNearestSum
    apply List.sum_nonneg
    intro x hx
    rcases List.mem_map.mp hx with ⟨i, _, rfl⟩
    exact specNearestDist_nonneg _ _

/-- C1 witness: the theorem applied to the candidate starting at `R1C1` for a
2-seat request on the fresh 1×3 demo plan. -/
theorem candidate_score_spec_witness :
    (mkFoundRange demoPlan.center 0 0 2).score =
      some (spanNearestSum demoPlan.center (mkFoundRange demoPlan.center 0 0 2)) ∧
    0 ≤ spanNearestSum demoPlan.center (mkFoundRange demoPlan.center 0 0 2) :=
  candidate_score_spec demoPlan 2 (mkFoundRange demoPlan.center 0 0 2) (by decide)

/-- C2: for every well-formed grid and seat count `n ≥ 1`, the generator
returns exactly the windows `(row, startColumn)` with
`0 ≤ startColumn ≤ columns - n` whose `n` cells are all unoccupied, in
row-major order with ascending start column; every returned range stays in a
single row and spans exactly `n` seats; and the result is the empty list
(never an error) when `n > columns`. -/
theorem generator_window_spec :
    ∀ (plan : SeatingPlan) (n : Int), wellFormed plan → 1 ≤ n →
      ((findAllPossibleSeatRanges plan n).map (fun rg => rg.start) =
        specWindows plan n) ∧
      (∀ rg ∈ findAllPossibleSeatRanges plan n,
        rg.«end» = (rg.start.1, rg.start.2 + n - 1)) ∧
      (plan.config.columns < n → findAllPossibleSeatRanges plan n = []) := by
  intro plan n hwf hn
  refine ⟨?_, ?_, ?_⟩
  · unfold findAllPossibleSeatRanges specWindows
    rw [List.map_flatMap]
    apply List.flatMap_congr
    intro r hr
    rcases mem_intsUpTo.mp hr with ⟨h0, hlt⟩
    rcases wellFormed_mapGet hwf h0 hlt with ⟨row, hget, hlen⟩
    unfold rangesInRow
    simp only [hget]
    by_cases hall : (row.all (fun seat => seat)) = true
    · rw [if_pos hall, List.map_nil]
      symm
      simp only [List.map_eq_nil_iff, List.filter_eq_nil_iff]
      intro c hc
      rcases mem_intsUpTo.mp hc with ⟨hc0, hc1⟩
      intro hpred
      have h00 : (0 : Nat) ∈ List.range n.toNat := List.mem_range.mpr (by omega)
      have hoff := List.all_eq_true.mp hpred 0 h00
      have hcl : c.toNat < row.length := by omega
      have htk : seatTaken plan r (c + ((0 : Nat) : Int)) = true := by
        have : c + ((0 : Nat) : Int) = c := by omega
        rw [this, seatTaken_eq_rowGet hget, rowGet_eq_getElem hc0 hcl]
        exact List.all_eq_true.mp hall _ (List.getElem_mem hcl)
      rw [htk] at hoff
      exact absurd hoff (by simp)
    · rw [if_neg hall, List.map_map]
      have hfil : (intsUpTo (plan.config.columns - n + 1)).filter
          (windowAvailable plan.config row n) =
          (intsUpTo (plan.config.columns - n + 1)).filter
            (fun c => (List.range n.toNat).all fun off =>
              !(seatTaken plan r (c + (off : Int)))) := by
        apply List.filter_congr
        intro c hc
        rcases mem_intsUpTo.mp hc with ⟨hc0, hc1⟩
        unfold windowAvailable
        apply all_congr_bool
        intro off hoffmem
        have hoffn : (off : Int) < n := by
          have := List.mem_range.mp hoffmem
          omega
        have hcol : c + (off : Int) < plan.config.columns := by omega
        rw [seatTaken_eq_rowGet hget]
        simp [hcol]
      rw [hfil]
      apply List.map_congr_left
      intro c _
      rfl
  · intro rg hmem
    exact (findAll_range_shape hmem).1
  · intro hbig
    unfold findAllPossibleSeatRanges
    rw [List.flatMap_eq_nil_iff]
    intro r _
    rw [List.eq_nil_iff_forall_not_mem]
    intro rg hmem
    rcases mem_rangesInRow.mp hmem with ⟨row, _, _, columnId, ⟨h0, h1⟩, _, _⟩
    omega

/-- C2 witness: the theorem applied to the fresh 1×3 demo plan with `n = 2`. -/
theorem generator_window_spec_witness :
    ((findAllPossibleSeatRanges demoPlan 2).map (fun rg => rg.start) =
      specWindows demoPlan 2) ∧
    (∀ rg ∈ findAllPossibleSeatRanges demoPlan 2,
      rg.«end» = (rg.start.1, rg.start.2 + 2 - 1)) ∧
    (demoPlan.config.columns < 2 → findAllPossibleSeatRanges demoPlan 2 = []) :=
  generator_window_spec demoPlan 2 (by decide) (by decide)

/-- C3: for a non-empty candidate list, `findBestSeatRange` returns a
candidate whose score is minimal and, among the minimal-score candidates, one
whose start row index is minimal (so the selection is determined by the
(score ascending, row ascending) rule, not by the reduction's traversal
order); on an empty candidate set it fails with the no-candidate error. -/
theorem selector_minimal :
    ∀ (plan : SeatingPlan) (n : Int),
      (findAllPossibleSeatRanges plan n = [] →
        findBestSeatRange plan n =
          .error ("No possible ranges found: " ++ toString n)) ∧
      (∀ best, findBestSeatRange plan n = .ok best →
        best ∈ findAllPossibleSeatRanges plan n ∧
        ∃ s, best.score = some s ∧
          ∀ rg ∈ findAllPossibleSeatRanges plan n, ∃ sr, rg.score = some sr ∧
            s ≤ sr ∧ (s = sr → best.start.1 ≤ rg.start.1)) := by
  intro plan n
  constructor
  · intro h
    unfold findBestSeatRange
    rw [h]
  · intro best hbest
    unfold findBestSeatRange at hbest
    cases hall : findAllPossibleSeatRanges plan n with
    | nil => rw [hall] at hbest; cases hbest
    | cons hd tl =>
      rw [hall] at hbest
      have hbesteq : tl.foldl bestStep hd = best := by
        cases hbest
        rfl
      obtain ⟨hmem, hle⟩ := foldl_bestStep_spec tl hd
      rw [hbesteq] at hmem hle
      have hmem' : best ∈ findAllPossibleSeatRanges plan n := by
        rw [hall]; exact hmem
      refine ⟨hmem, ?_⟩
      obtain ⟨s, hs⟩ := findAll_score_isSome hmem'
      refine ⟨s, hs, ?_⟩
      intro rg hrg
      have hrg' : rg ∈ findAllPossibleSeatRanges plan n := by
        rw [hall]; exact hrg
      obtain ⟨sr, hsr⟩ := findAll_score_isSome hrg'
      have hlerg := hle rg hrg
      unfold rangeLe at hlerg
      rw [hs, hsr] at hlerg
      simp only [ltInf, eqInf, beq_iff_eq, decide_eq_true_eq] at hlerg
      rcases hlerg with hlt | ⟨heq, hrow⟩
      · exact ⟨sr, hsr, by omega, by omega⟩
      · exact ⟨sr, hsr, by omega, fun _ => hrow⟩

/-- C3 witness: the theorem's success branch applied to the fresh 1×3 demo
plan and a 2-seat request (best candidate `R1C1 - R1C2`). -/
theorem selector_minimal_witness :
    mkFoundRange demoPlan.center 0 0 2 ∈ findAllPossibleSeatRanges demoPlan 2 ∧
    ∃ s, (mkFoundRange demoPlan.center 0 0 2).score = some s ∧
      ∀ rg ∈ findAllPossibleSeatRanges demoPlan 2, ∃ sr, rg.score = some sr ∧
        s ≤ sr ∧ (s = sr → (mkFoundRange demoPlan.center 0 0 2).start.1 ≤ rg.start.1) :=
  (selector_minimal demoPlan 2).2 (mkFoundRange demoPlan.center 0 0 2) (by rfl)

/-- C4: `reserveRange` fails with the single-row error when the range crosses
rows, with the invalid-range error when `start.column > end.column`, and fails
(committing nothing the caller can observe — the returned value is the error,
and the caller's grid is the unchanged input) whenever some seat of the
inclusive span is already occupied; on success exactly the seats of the span
are occupied in the result and every other cell is unchanged. -/
theorem reserveRange_atomic :
    ∀ (plan : SeatingPlan) (range : SeatRange),
      (range.start.1 ≠ range.«end».1 →
        reserveRange plan range =
          .error "Only single-row ranges are supported.") ∧
      (range.start.1 = range.«end».1 → range.«end».2 < range.start.2 →
        reserveRange plan range =
          .error ("Invalid range: " ++ jsonSeatRange range)) ∧
      (range.start.1 = range.«end».1 → range.start.2 ≤ range.«end».2 →
        (∃ c, range.start.2 ≤ c ∧ c ≤ range.«end».2 ∧
          seatTaken plan range.start.1 c = true) →
        ∀ p', reserveRange plan range ≠ .ok p') ∧
      (∀ p', reserveRange plan range = .ok p' →
        (∀ c, range.start.2 ≤ c → c ≤ range.«end».2 →
          seatTaken p' range.start.1 c = true) ∧
        (∀ r c, (r ≠ range.start.1 ∨ c < range.start.2 ∨ range.«end».2 < c) →
          seatTaken p' r c = seatTaken plan r c)) := by
  intro plan range
  refine ⟨?_, ?_, ?_, ?_⟩
  · intro h1
    unfold reserveRange validateSeatRange
    rw [if_pos h1]
  · intro h1 h2
    unfold reserveRange validateSeatRange
    rw [if_neg (not_not_intro h1), if_pos (Or.inr (by omega))]
  · rintro h1 h2 ⟨c, hc1, hc2, htk⟩ p' h
    unfold reserveRange at h
    have hv : validateSeatRange range = .ok () := by
      unfold validateSeatRange
      rw [if_neg (not_not_intro h1), if_neg (by omega)]
    simp only [hv] at h
    exact reserveRangeLoop_taken_err _ plan range.start.2 c hc1
      (by omega) htk p' h
  · intro p' h
    unfold reserveRange at h
    cases hv : validateSeatRange range with
    | error e => rw [hv] at h; cases h
    | ok u =>
      simp only [hv] at h
      obtain ⟨hrow, hcol⟩ := validateSeatRange_ok_inv hv
      obtain ⟨hspan, hout⟩ := reserveRangeLoop_ok_sets _ plan range.start.2 p' h
      constructor
      · intro c h1 h2
        exact hspan c h1 (by omega)
      · intro r c hcond
        refine hout r c ?_
        rcases hcond with hh | hh | hh
        · exact Or.inl hh
        · exact Or.inr (Or.inl hh)
        · exact Or.inr (Or.inr (by omega))

/-- The 1×3 demo plan with its first two seats occupied. -/
def demoPlanR1C12 : SeatingPlan :=
  { config := { rows := 1, columns := 3 }
    seatMap := [[true, true, false]]
    center := .single 0 1 }

/-- C4 witness: the success branch of the theorem applied to the demo plan
and the range `R1C1 - R1C2`. -/
theorem reserveRange_atomic_witness :
    (∀ c, (0 : Int) ≤ c → c ≤ 1 →
      seatTaken demoPlanR1C12 0 c = true) ∧
    (∀ r c, (r ≠ (0 : Int) ∨ c < (0 : Int) ∨ (1 : Int) < c) →
      seatTaken demoPlanR1C12 r c = seatTaken demoPlan r c) :=
  (reserveRange_atomic demoPlan
    { start := (0, 0), «end» := (0, 1) }).2.2.2 demoPlanR1C12 (by rfl)

/-- C8: occupancy is monotone: for each grid-updating operation
(`reserveSeat`, `reserveRange`, `handleInitialReservations`, and one request
step of the run), every cell occupied in the input grid is still occupied in
the output grid, and consequently the available-seat count never increases. -/
theorem occupancy_monotone :
    ∀ (plan : SeatingPlan),
      (∀ loc p', reserveSeat plan loc = .ok p' →
        (∀ r c, seatTaken plan r c = true → seatTaken p' r c = true) ∧
        getAvailableSeatCount p' ≤ getAvailableSeatCount plan) ∧
      (∀ range p', reserveRange plan range = .ok p' →
        (∀ r c, seatTaken plan r c = true → seatTaken p' r c = true) ∧
        getAvailableSeatCount p' ≤ getAvailableSeatCount plan) ∧
      (∀ tokens p', handleInitialReservations plan tokens = .ok p' →
        (∀ r c, seatTaken plan r c = true → seatTaken p' r c = true) ∧
        getAvailableSeatCount p' ≤ getAvailableSeatCount plan) ∧
      (∀ req out p', processRequest plan req = (out, p') →
        (∀ r c, seatTaken plan r c = true → seatTaken p' r c = true) ∧
        getAvailableSeatCount p' ≤ getAvailableSeatCount plan) := by
  intro plan
  refine ⟨?_, ?_, ?_, ?_⟩
  · intro loc p' h
    have hs := reserveSeat_planStep h
    exact ⟨hs.2.2, getAvailableSeatCount_mono hs⟩
  · intro range p' h
    have hs := reserveRange_planStep h
    exact ⟨hs.2.2, getAvailableSeatCount_mono hs⟩
  · intro tokens p' h
    have hs := handleInitialReservations_planStep tokens plan p' h
    exact ⟨hs.2.2, getAvailableSeatCount_mono hs⟩
  · intro req out p' h
    have hs := processRequest_planStep plan req out p' h
    exact ⟨hs.2.2, getAvailableSeatCount_mono hs⟩

/-- The 1×3 demo plan with only its first seat occupied. -/
def demoPlanOnlyR1C1 : SeatingPlan :=
  { config := { rows := 1, columns := 3 }
    seatMap := [[true, false, false]]
    center := .single 0 1 }

/-- C8 witness: the `reserveSeat` component of the theorem applied to the
demo plan at seat `(0, 0)`. -/
theorem occupancy_monotone_witness :
    (∀ r c, seatTaken demoPlan r c = true →
      seatTaken demoPlanOnlyR1C1 r c = true) ∧
    getAvailableSeatCount demoPlanOnlyR1C1 ≤ getAvailableSeatCount demoPlan :=
  (occupancy_monotone demoPlan).1 (0, 0) demoPlanOnlyR1C1 (by rfl)

/-- C6 (amended): when grid creation succeeds, the run always completes and
its output is exactly one line per request line followed by one final line
holding the available-seat count of the finishing grid.  Each request step
either fails and records `"Not Available"` with the grid unchanged, or
commits exactly the best range found (`reserveRange` succeeds on it, and the
run continues with that updated grid) and records that committed range's
label; the request loop threads the grid through the steps one line at a
time.  A request line with no leading integer (`parseInt` yields `NaN`), or
whose parsed integer is zero or negative, yields `"Not Available"` and
leaves the grid unchanged, so it does not affect subsequent requests;
however a line with a leading integer prefix followed by junk (`"2x"`) is
treated as that integer, not as an invalid request. -/
theorem run_output_shape :
    (∀ (plan : SeatingPlan) (req : String), parseIntJS req = none →
      processRequest plan req = ("Not Available", plan)) ∧
    (∀ (plan : SeatingPlan) (req : String) (k : Int), parseIntJS req = some k →
      k ≤ 0 → processRequest plan req = ("Not Available", plan)) ∧
    (∀ (plan : SeatingPlan) (req : String),
      processRequest plan req = ("Not Available", plan) ∨
      ∃ (k : Int) (best : SeatRange) (p' : SeatingPlan),
        parseIntJS req = some k ∧
        findBestSeatRange plan k = .ok best ∧
        reserveRange plan best = .ok p' ∧
        processRequest plan req = (getSeatRangeInStringFormat best, p')) ∧
    (∀ (plan : SeatingPlan) (req : String) (rest : List String),
      processRequests plan (req :: rest) =
        ((processRequest plan req).1 ::
          (processRequests (processRequest plan req).2 rest).1,
          (processRequests (processRequest plan req).2 rest).2)) ∧
    (∀ (plan : SeatingPlan) (reqs : List String),
      (processRequests plan reqs).1.length = reqs.length) ∧
    (∀ (lines : List String) (overrides : PartialSeatMapConfig)
      (out : List String), Seatly lines overrides = .ok out →
      ∃ plan0, initSeatingPlan (some { rows := some (getCliOptions overrides).rows, columns := some (getCliOptions overrides).columns }) = .ok plan0 ∧
        out = (processRequests (seatlyPlanAfterInit lines plan0)
            (lines.tail.map jsTrim)).1 ++
          [toString (getAvailableSeatCount
            (processRequests (seatlyPlanAfterInit lines plan0)
              (lines.tail.map jsTrim)).2)] ∧
        out.length = lines.tail.length + 1 ∧
        out.getLast? = some (toString (getAvailableSeatCount
          (processRequests (seatlyPlanAfterInit lines plan0)
            (lines.tail.map jsTrim)).2))) := by
  refine ⟨?_, ?_, ?_, ?_, ?_, ?_⟩
  · intro plan req h
    unfold processRequest
    simp only [h]
  · intro plan req k hpi hk
    unfold processRequest
    simp only [hpi]
    cases hbf : findBestSeatRange plan k with
    | error e => simp only [hbf]
    | ok best =>
      simp only [hbf]
      have hmem : best ∈ findAllPossibleSeatRanges plan k := by
        unfold findBestSeatRange at hbf
        cases hall : findAllPossibleSeatRanges plan k with
        | nil => rw [hall] at hbf; cases hbf
        | cons hd tl =>
          rw [hall] at hbf
          have hfold : tl.foldl bestStep hd = best := by
            cases hbf
            rfl
          exact hfold ▸ (foldl_bestStep_spec tl hd).1
      obtain ⟨hshape, _, _⟩ := findAll_range_shape hmem
      have h1 : best.start.1 = best.«end».1 := by rw [hshape]
      have h2 : best.«end».2 < best.start.2 := by
        have := congrArg Prod.snd hshape
        simp only [] at this
        omega
      rw [reserveRange_err_of_inverted h1 h2]
  · intro plan req
    cases hpi : parseIntJS req with
    | none =>
      left
      unfold processRequest
      simp only [hpi]
    | some amount =>
      cases hbf : findBestSeatRange plan amount with
      | error e =>
        left
        unfold processRequest
        simp only [hpi, hbf]
      | ok bestRange =>
        cases hrr : reserveRange plan bestRange with
        | error e =>
          left
          unfold processRequest
          simp only [hpi, hbf, hrr]
        | ok p =>
          right
          refine ⟨amount, bestRange, p, rfl, hbf, hrr, ?_⟩
          unfold processRequest
          simp only [hpi, hbf, hrr]
  · intro plan req rest
    exact processRequests_cons plan req rest
  · intro plan reqs
    exact processRequests_length reqs plan
  · intro lines overrides out h
    obtain ⟨plan0, hi, hout⟩ := Seatly_ok_inv h
    refine ⟨plan0, hi, hout, ?_, ?_⟩
    · rw [hout]
      simp [processRequests_length]
    · rw [hout, List.getLast?_concat]

/-- C6 witness: the zero-request component of the theorem applied to the
demo plan. -/
theorem run_output_shape_witness :
    processRequest demoPlan "0" = ("Not Available", demoPlan) :=
  run_output_shape.2.1 demoPlan "0" 0 (by rfl) (by omega)

/-- C9 counterexample: a configured dimension of `0` is below 1, yet grid
creation succeeds — the falsy override check silently replaces `0` by the
default of 3 rows. -/
theorem init_zero_rows_succeeds :
    (initSeatingPlan (some { rows := some 0, columns := some 5 })).toOption.map
      (fun p => (p.config.rows, p.config.columns)) = some (3, 5) := by rfl

/-- C9 (amended): a configured dimension of `0` (or an absent one) is treated
as unset and replaced by the default (3 rows, 11 columns) before validation;
creation fails exactly when the effective dimensions after this substitution
have `rows < 1` or `columns < 1` (so only explicitly negative values fail),
and for effective `rows, columns ≥ 1` it succeeds with a grid of
`rows × columns` cells, all available, whose available count is
`rows * columns`. -/
theorem initSeatingPlan_validates_effective_config :
    ∀ ci : Option PartialSeatMapConfig,
      ((effectiveConfig ci).rows < 1 ∨ (effectiveConfig ci).columns < 1 →
        initSeatingPlan ci = .error
          ("Invalid config, neither rows or columns can be less than 1: " ++
            jsonConfig (effectiveConfig ci))) ∧
      (1 ≤ (effectiveConfig ci).rows → 1 ≤ (effectiveConfig ci).columns →
        ∃ plan, initSeatingPlan ci = .ok plan ∧
          plan.config = effectiveConfig ci ∧
          (∀ r c, seatTaken plan r c = false) ∧
          getAvailableSeatCount plan =
            (effectiveConfig ci).rows * (effectiveConfig ci).columns) := by
  intro ci
  constructor
  · intro h
    unfold initSeatingPlan
    rw [if_pos h]
  · intro hr hc
    unfold initSeatingPlan
    rw [if_neg (by omega)]
    exact ⟨_, rfl, rfl, seatTaken_fresh _ _,
      getAvailableSeatCount_fresh _ _ hr hc⟩

/-- C9 witness: the amended theorem applied to the configured input
`rows = 0, columns = 5` (effective config `3 × 5`). -/
theorem initSeatingPlan_validates_effective_config_witness :
    ∃ plan, initSeatingPlan (some { rows := some 0, columns := some 5 }) = .ok plan ∧
      plan.config = effectiveConfig (some { rows := some 0, columns := some 5 }) ∧
      (∀ r c, seatTaken plan r c = false) ∧
      getAvailableSeatCount plan =
        (effectiveConfig (some { rows := some 0, columns := some 5 })).rows *
          (effectiveConfig (some { rows := some 0, columns := some 5 })).columns :=
  (initSeatingPlan_validates_effective_config
    (some { rows := some 0, columns := some 5 })).2 (by decide) (by decide)

/-- C10: on a 1×3 grid with no prior reservations, the requests `2` then `2`
yield `R1C1 - R1C2`, then `Not Available`, then the trailing count `1`. -/
theorem seatly_one_by_three_two_requests :
    Seatly ["", "2", "2"] { rows := some 1, columns := some 3 } =
      .ok ["R1C1 - R1C2", "Not Available", "1"] := by rfl

/-- C5 counterexample: with initial-reservation line `"R1C1 x"`, the token
`R1C1` parses and reserves successfully and precedes the failing token `x`,
yet the plan the run continues with does **not** contain the `R1C1`
reservation: the caught exception reverts every seat committed inside
`handleInitialReservations`. -/
theorem initial_reservation_rollback_counterexample :
    handleInitialReservations demoPlan ["R1C1"] =
      .ok { config := { rows := 1, columns := 3 }
            seatMap := [[true, false, false]]
            center := .single 0 1 } ∧
    (handleInitialReservations demoPlan (jsSplitSpace "R1C1 x")).isOk = false ∧
    seatTaken (seatlyInitialPlan demoPlan (some "R1C1 x")) 0 0 = false := by
  exact ⟨rfl, rfl, rfl⟩

/-- C5 (amended): when any initial-reservation token fails to parse or names
an occupied seat, the **entire** initial-reservation step is abandoned — the
run continues processing the request lines against the grid exactly as it was
before any initial-reservation token was applied, retaining none of the
tokens' seats (not even the ones successfully committed before the failing
token). -/
theorem initial_reservations_all_or_nothing :
    ∀ (plan0 : SeatingPlan) (s : String) (e : String),
      handleInitialReservations plan0 (jsSplitSpace s) = .error e →
      seatlyInitialPlan plan0 (some s) = plan0 := by
  intro plan0 s e h
  by_cases hs : s = ""
  · simp [seatlyInitialPlan, hs]
  · simp [seatlyInitialPlan, hs, h]

/-- C5 witness: the amended theorem applied to the demo plan and the line
`"R1C1 x"`, whose second token fails to parse. -/
theorem initial_reservations_all_or_nothing_witness :
    seatlyInitialPlan demoPlan (some "R1C1 x") = demoPlan :=
  initial_reservations_all_or_nothing demoPlan "R1C1 x" "Invalid input: x" rfl

/-- C6 counterexample: the request line `"2x"` is not a numeral, yet the run
treats it as the number 2 (JS `parseInt` keeps the digit prefix), commits a
2-seat range and outputs its label rather than `Not Available`; the grid's
occupancy changes (only 1 seat remains out of 3). -/
theorem nonnumeric_request_counterexample :
    Seatly ["", "2x"] { rows := some 1, columns := some 3 } =
      .ok ["R1C1 - R1C2", "1"] ∧
    ("R1C1 - R1C2" : String) ≠ "Not Available" := by
  exact ⟨rfl, by decide⟩

end Seatly
